import Mathlib

/-! Verification of the Grade-Notifier retrieval and reconciliation core.
The definitions below are a shallow embedding of the Python sources
(main.py, grade_fetcher.py, robust_scraper.py): text and date
normalization, the extractor row mappings, the canonicalizer, the diff
engine, and the fallback orchestrator.  Theorems about the claims of the
specification follow the definitions. -/

namespace GradeNotifier

/-- Whitespace characters recognized by the Python functions str.split and str.strip
(the Unicode whitespace set used by str.isspace). -/
def isPyWS (c : Char) : Bool :=
  c = ' ' || c = '\t' || c = '\n' || c = '\r' || c = '\u000B' || c = '\u000C' ||
  c = '\u001C' || c = '\u001D' || c = '\u001E' || c = '\u001F' || c = '\u0085' ||
  c = '\u00A0' || c = '\u1680' || c = '\u2000' || c = '\u2001' || c = '\u2002' ||
  c = '\u2003' || c = '\u2004' || c = '\u2005' || c = '\u2006' || c = '\u2007' ||
  c = '\u2008' || c = '\u2009' || c = '\u200A' || c = '\u2028' || c = '\u2029' ||
  c = '\u202F' || c = '\u205F' || c = '\u3000'

/-- Split a character list at every whitespace character, keeping empty
fields (the fields of a split on each single whitespace character). -/
def splitWS : List Char → List (List Char)
  | [] => [[]]
  | c :: cs =>
    match splitWS cs with
    | [] => [[]]
    | t :: ts => if isPyWS c then [] :: t :: ts else (c :: t) :: ts

/-- Python str.split() with no argument: whitespace-separated tokens,
empty fields dropped. -/
def pySplit (l : List Char) : List (List Char) :=
  (splitWS l).filter (fun t => !t.isEmpty)

/-- Python " ".join. -/
def joinSp : List (List Char) → List Char
  | [] => []
  | [t] => t
  | t :: ts => t ++ ' ' :: joinSp ts

/-- Python value.replace of the non-breaking space by an ordinary space. -/
def nbspReplace (l : List Char) : List Char :=
  l.map (fun c => if c = '\u00A0' then ' ' else c)

/-- Model of main.normalize_text on the character list level. -/
def normalizeTextL (l : List Char) : List Char :=
  joinSp (pySplit (nbspReplace l))

/-- main.normalize_text (identical in robust_scraper.py): collapse
non-breaking spaces and whitespace runs to single spaces and trim. -/
def normalize_text (s : String) : String :=
  ⟨normalizeTextL s.data⟩

/-- Python str.strip(): drop whitespace from both ends. -/
def pyStripL (l : List Char) : List Char :=
  ((l.dropWhile isPyWS).reverse.dropWhile isPyWS).reverse

/-- Python str.strip() on strings. -/
def pyStrip (s : String) : String :=
  ⟨pyStripL s.data⟩

/-- Python str.split(sep) for a one-character separator: all fields,
empty fields kept. -/
def splitChar (sep : Char) : List Char → List (List Char)
  | [] => [[]]
  | c :: cs =>
    match splitChar sep cs with
    | [] => [[]]
    | t :: ts => if c = sep then [] :: t :: ts else (c :: t) :: ts

/-- The ten decimal digit characters. -/
def digitChars : List Char := ['0', '1', '2', '3', '4', '5', '6', '7', '8', '9']

/-- The decimal digit character of n mod 10. -/
def digitChar (n : Nat) : Char :=
  match n % 10 with
  | 0 => '0' | 1 => '1' | 2 => '2' | 3 => '3' | 4 => '4'
  | 5 => '5' | 6 => '6' | 7 => '7' | 8 => '8' | _ => '9'

/-- Decimal digit test. -/
def isDigitC (c : Char) : Bool := decide ('0' ≤ c) && decide (c ≤ '9')

/-- Numeric value of a digit character. -/
def digitVal (c : Char) : Nat := c.toNat - 48

/-- Numeric value of a digit-character list. -/
def toValD (l : List Char) : Nat := l.foldl (fun a c => a * 10 + digitVal c) 0

/-- All characters are decimal digits. -/
def allDigits (l : List Char) : Bool := l.all isDigitC

/-- Bounded range test on naturals. -/
def inRange (lo hi n : Nat) : Bool := decide (lo ≤ n) && decide (n ≤ hi)

/-- The strings matched by CPython strptime for the %d directive:
one digit 1-9 or two digits with value 1..31. -/
def dayOk (t : List Char) : Bool :=
  allDigits t &&
    ((t.length == 1 && inRange 1 9 (toValD t)) || (t.length == 2 && inRange 1 31 (toValD t)))

/-- The strings matched by CPython strptime for the %m directive. -/
def monthOk (t : List Char) : Bool :=
  allDigits t &&
    ((t.length == 1 && inRange 1 9 (toValD t)) || (t.length == 2 && inRange 1 12 (toValD t)))

/-- The strings matched by CPython strptime for the %H directive. -/
def hourOk (t : List Char) : Bool :=
  allDigits t && (t.length == 1 || (t.length == 2 && inRange 0 23 (toValD t)))

/-- The strings matched by CPython strptime for the %M directive. -/
def minuteOk (t : List Char) : Bool :=
  allDigits t && (t.length == 1 || (t.length == 2 && inRange 0 59 (toValD t)))

/-- The strings matched by CPython strptime for the %Y directive:
exactly four digits. -/
def yearOk (t : List Char) : Bool := allDigits t && t.length == 4

/-- Gregorian leap-year rule, as used by the Python datetime module. -/
def isLeap (y : Nat) : Bool := y % 4 == 0 && (y % 100 != 0 || y % 400 == 0)

/-- Days in a month, as validated by the datetime constructor. -/
def daysInMonth (y m : Nat) : Nat :=
  if m == 2 then (if isLeap y then 29 else 28)
  else if m == 4 || m == 6 || m == 9 || m == 11 then 30 else 31

/-- datetime.strptime with format "%d/%m/%Y" followed by the datetime
constructor calendar validation; ValueError becomes none. -/
def parseSlashDate (s : List Char) : Option (Nat × Nat × Nat) :=
  match splitChar '/' s with
  | [d, mo, y] =>
    if dayOk d && monthOk mo && yearOk y then
      let dv := toValD d
      let mv := toValD mo
      let yv := toValD y
      if decide (1 ≤ yv) && decide (dv ≤ daysInMonth yv mv) then some (yv, mv, dv) else none
    else none
  | _ => none

/-- datetime.strptime with format "%d/%m/%Y %H:%M" followed by the
datetime constructor calendar validation; ValueError becomes none. -/
def parseSlashDateTime (s : List Char) : Option (Nat × Nat × Nat × Nat × Nat) :=
  match splitChar '/' s with
  | [d, mo, rest] =>
    match splitChar ' ' rest with
    | [y, t] =>
      match splitChar ':' t with
      | [h, mi] =>
        if dayOk d && monthOk mo && yearOk y && hourOk h && minuteOk mi then
          let dv := toValD d
          let mv := toValD mo
          let yv := toValD y
          if decide (1 ≤ yv) && decide (dv ≤ daysInMonth yv mv) then
            some (yv, mv, dv, toValD h, toValD mi)
          else none
        else none
      | _ => none
    | _ => none
  | _ => none

/-- Two-digit zero-padded decimal rendering (strftime %m, %d, %H, %M). -/
def pad2L (n : Nat) : List Char := [digitChar (n / 10), digitChar n]

/-- Four-digit zero-padded decimal rendering (strftime %Y for the years
producible here). -/
def pad4L (n : Nat) : List Char :=
  [digitChar (n / 1000), digitChar (n / 100), digitChar (n / 10), digitChar n]

/-- strftime("%Y-%m-%d") output. -/
def isoDateL (y m d : Nat) : List Char :=
  pad4L y ++ '-' :: pad2L m ++ '-' :: pad2L d

/-- The "%H:%M" part of strftime("%Y-%m-%d %H:%M") output. -/
def timePartL (h mi : Nat) : List Char := pad2L h ++ ':' :: pad2L mi

/-- strftime("%Y-%m-%d %H:%M") output. -/
def isoDateTimeL (y m d h mi : Nat) : List Char :=
  isoDateL y m d ++ ' ' :: timePartL h mi

/-- The string normalize_date hands to strptime: the first whitespace
token of the cleaned input, joined with the second token when present. -/
def ndJoined (clean : List Char) : List Char :=
  match pySplit clean with
  | [] => []
  | d :: rest =>
    match rest with
    | [] => d
    | t :: _ => d ++ ' ' :: t

/-- Core of main.normalize_date (identical in robust_scraper.py) on the
already text-normalized input: sentinel check, then the two slash date
formats in order, unparsable input returned as cleaned. -/
def ndCleanL (clean : List Char) : List Char :=
  if clean = [] ∨ clean = ['-'] ∨ clean = ['-', '-'] then []
  else if pySplit clean = [] then []
  else
    match parseSlashDateTime (ndJoined clean) with
    | some (y, mo, d, h, mi) => isoDateTimeL y mo d h mi
    | none =>
      match parseSlashDate (ndJoined clean) with
      | some (y, mo, d) => isoDateL y mo d
      | none => clean

/-- main.normalize_date (identical in robust_scraper.py). -/
def normalize_date (s : String) : String :=
  ⟨ndCleanL (normalizeTextL s.data)⟩

/-- Lowercase an ASCII letter, as Python str.lower does on the values
appearing here. -/
def pyLowerChar (c : Char) : Char :=
  if 'A' ≤ c ∧ c ≤ 'Z' then Char.ofNat (c.toNat + 32) else c

/-- Python str.lower on strings. -/
def pyLower (s : String) : String := ⟨s.data.map pyLowerChar⟩

/-- Python exceptions that the modelled code can raise. -/
inductive PyErr where
  | attributeError
  deriving DecidableEq, Repr

/-- A Python value as it can occur in the notebook field of a raw record:
a real bool, a string, or None. -/
inductive PyVal where
  | pyBool (b : Bool)
  | pyStr (s : String)
  | pyNone
  deriving DecidableEq, Repr

/-- main._is_truthy.  A falsy argument short-circuits to False; a truthy
string is compared lowercased against the truthy set; the Python value
True is truthy and .lower() on it raises AttributeError. -/
def is_truthy : PyVal → Except PyErr Bool
  | PyVal.pyNone => Except.ok false
  | PyVal.pyBool false => Except.ok false
  | PyVal.pyBool true => Except.error PyErr.attributeError
  | PyVal.pyStr s =>
    if s = "" then Except.ok false
    else Except.ok (decide (pyLower s ∈ (["1", "true", "yes", "on"] : List String)))

/-- A raw grade row as produced by either extractor (the dict handed to
canonicalize). -/
structure RawRec where
  course : String
  grade : String
  moed : String
  term : String
  date : String
  notebook_available : PyVal
  raw_text : String
  deriving DecidableEq, Repr

/-- One canonical record: the value dict stored by canonicalize. -/
structure CRec where
  course : String
  grade : String
  term : String
  moed : String
  date : String
  notebook_available : String
  raw_text : String
  deriving DecidableEq, Repr

/-- Lookup in an insertion-ordered dict modelled as an association list. -/
def dlookup {α : Type} : List (String × α) → String → Option α
  | [], _ => none
  | (k, v) :: t, key => if k = key then some v else dlookup t key

/-- Python dict assignment: replace in place when the key exists,
append otherwise. -/
def dictInsert {α : Type} : List (String × α) → String → α → List (String × α)
  | [], k, v => [(k, v)]
  | (k', v') :: t, k, v =>
    if k' = k then (k', v) :: t else (k', v') :: dictInsert t k v

/-- The numeric collision key f-string of canonicalize. -/
def suffixKey (base : String) (n : Nat) : String :=
  base ++ " (" ++ Nat.repr n ++ ")"

/-- The while loop of canonicalize searching a free numeric suffix,
with enough fuel to cover every occupied key. -/
def suffixLoop (m : List (String × CRec)) (base : String) : Nat → Nat → String
  | 0, n => suffixKey base n
  | Nat.succ fuel, n =>
    if (dlookup m (suffixKey base n)).isSome then suffixLoop m base fuel (n + 1)
    else suffixKey base n

/-- The base key of main.canonicalize: the stripped course, or the raw
row text, or a positional placeholder, with the moed suffix appended
when the stripped moed is non-empty. -/
def canonBase (m : List (String × CRec)) (rec : RawRec) : String :=
  let course := pyStrip rec.course
  let moed := pyStrip rec.moed
  let base0 :=
    if course ≠ "" then course
    else if rec.raw_text ≠ "" then rec.raw_text
    else "row_" ++ Nat.repr m.length
  if moed ≠ "" then base0 ++ " | moed " ++ moed else base0

/-- The collision-resolved key of main.canonicalize: the base key when
free; on collision the date-disambiguated key when the dates differ,
else the first free numeric suffix. -/
def canonKey (m : List (String × CRec)) (rec : RawRec) : String :=
  match dlookup m (canonBase m rec) with
  | none => canonBase m rec
  | some existing =>
    if pyStrip rec.date ≠ "" ∧ existing.date ≠ pyStrip rec.date then
      canonBase m rec ++ " | " ++ pyStrip rec.date
    else suffixLoop m (canonBase m rec) (m.length + 1) 2

/-- One iteration of main.canonicalize: build the key, then store the
canonical value (whose construction calls _is_truthy and can raise). -/
def canonStep (m : List (String × CRec)) (rec : RawRec) : Except PyErr (List (String × CRec)) :=
  match is_truthy rec.notebook_available with
  | Except.error e => Except.error e
  | Except.ok b =>
    Except.ok (dictInsert m (canonKey m rec)
      ⟨pyStrip rec.course, pyStrip rec.grade, pyStrip rec.term, pyStrip rec.moed,
       pyStrip rec.date, if b then "true" else "false", rec.raw_text⟩)

/-- The fold of main.canonicalize over the record list. -/
def canonAux : List (String × CRec) → List RawRec → Except PyErr (List (String × CRec))
  | m, [] => Except.ok m
  | m, rec :: rest =>
    match canonStep m rec with
    | Except.error e => Except.error e
    | Except.ok m1 => canonAux m1 rest

/-- main.canonicalize: fold raw records into the snapshot dict. -/
def canonicalize (records : List RawRec) : Except PyErr (List (String × CRec)) :=
  canonAux [] records

/-- The base key canonicalize derives for a record with a non-empty
course (the notion of base key used by the claims): stripped course, or the raw
row text when the course is empty, with the moed suffix appended. -/
def baseKeyOf (r : RawRec) : String :=
  let base0 :=
    if pyStrip r.course ≠ "" then pyStrip r.course
    else if r.raw_text ≠ "" then r.raw_text
    else ""
  if pyStrip r.moed ≠ "" then base0 ++ " | moed " ++ pyStrip r.moed else base0

/-- The canonical value canonicalize stores for a record, none when the
value construction raises. -/
def canonValueOf (r : RawRec) : Option CRec :=
  match is_truthy r.notebook_available with
  | Except.error _ => none
  | Except.ok b =>
    some ⟨pyStrip r.course, pyStrip r.grade, pyStrip r.term, pyStrip r.moed,
      pyStrip r.date, if b then "true" else "false", r.raw_text⟩

/-- main.get_changes: one entry per key of current whose value differs
from previous (an absent previous value compares unequal). -/
def get_changes (current previous : List (String × CRec)) :
    List (String × (Option CRec × CRec)) :=
  current.filterMap (fun kv =>
    if dlookup previous kv.1 = some kv.2 then none
    else some (kv.1, (dlookup previous kv.1, kv.2)))

/-- An orchestrator-level outcome of one monitoring cycle. -/
inductive FetchErr where
  | critical (msg : String)
  | bothFailed (msg : String)
  | pyError (e : PyErr)
  deriving DecidableEq, Repr

/-- The environment of one cycle of monitor_grades_with_fallback: what
the primary extractor returns or raises, whether the robust login
succeeds, what the robust scrape returns or raises, and the cache. -/
structure FetchEnv where
  primary : Except String (List RawRec)
  domLogin : Bool
  domScrape : Except String (List RawRec)
  cache : List (String × CRec)

deriving instance DecidableEq for Except

/-- The observable behavior of one cycle of
monitor_grades_with_fallback. -/
structure FetchTrace where
  domAttempts : Nat
  usedRecords : List RawRec
  fetchSource : String
  outcome : Except FetchErr Unit
  cacheWritten : Option (List (String × CRec))
  notified : Bool
  deriving DecidableEq, Repr

/-- The critical-failure message of monitor_grades_with_fallback. -/
def criticalMsg (n : Nat) : String :=
  "Critical: No grades fetched from either source, but cache has " ++
    Nat.repr n ++ " records."

/-- The tail of monitor_grades_with_fallback after extraction: the
empty-result cache check, then canonicalize, diff, and the conditional
cache write plus notification. -/
def processPhase (env : FetchEnv) (exams : List RawRec) (src : String)
    (domAttempts : Nat) : FetchTrace :=
  if exams = [] then
    if env.cache ≠ [] ∧ 5 < env.cache.length then
      ⟨domAttempts, exams, src,
        Except.error (FetchErr.critical (criticalMsg env.cache.length)), none, false⟩
    else ⟨domAttempts, exams, src, Except.ok (), none, false⟩
  else
    match canonicalize exams with
    | Except.error e =>
      ⟨domAttempts, exams, src, Except.error (FetchErr.pyError e), none, false⟩
    | Except.ok current =>
      if get_changes current env.cache = [] then
        ⟨domAttempts, exams, src, Except.ok (), none, false⟩
      else ⟨domAttempts, exams, src, Except.ok (), some current, true⟩

/-- The DOM fallback attempt of monitor_grades_with_fallback: one fresh
scraper session; a scrape exception becomes the both-methods-failed
error, a failed login leaves the record list empty. -/
def domPhase (env : FetchEnv) : FetchTrace :=
  if env.domLogin then
    match env.domScrape with
    | Except.error e =>
      ⟨1, [], "None",
        Except.error (FetchErr.bothFailed
          ("Both API and DOM fetch methods failed. Last error: " ++ e)), none, false⟩
    | Except.ok l => processPhase env l (if l = [] then "None" else "DOM") 1
  else processPhase env [] "None" 1

/-- main.monitor_grades_with_fallback: try the API fetcher, fall back to
the DOM scraper only on an empty or raised primary result, then process. -/
def monitor_grades_with_fallback (env : FetchEnv) : FetchTrace :=
  match env.primary with
  | Except.ok l => if l = [] then domPhase env else processPhase env l "API" 0
  | Except.error _ => domPhase env

/-- Does one character list start with another. -/
def startsW : List Char → List Char → Bool
  | [], _ => true
  | _ :: _, [] => false
  | p :: ps, c :: cs => p == c && startsW ps cs

/-- Python substring containment (the in operator on str). -/
def hasSub (pat : List Char) : List Char → Bool
  | [] => pat.isEmpty
  | c :: cs => startsW pat (c :: cs) || hasSub pat cs

/-- Substring containment on strings. -/
def hasSubStr (pat s : String) : Bool := hasSub pat.data s.data

/-- One item of the intercepted API list, with the fields
process_grades reads (absent JSON fields are none). -/
structure ApiItem where
  CourseDescription : Option String
  Course : Option String
  FinalGrade : Option String
  DueDescription : Option String
  AssignmentDescription : Option String
  DueDate : Option String
  ScanStatus : Option String
  File : Option String
  ScanFileName : Option String
  deriving DecidableEq, Repr

/-- The get_val helper of process_grades: stringify a possibly absent
field and strip it. -/
def get_val (o : Option String) : String := pyStrip (o.getD "")

/-- grade_fetcher.looks_like_file_reference: non-empty, not a null-like
placeholder, and containing a known extension or path-like token. -/
def looks_like_file_reference (raw : Option String) : Bool :=
  match raw with
  | none => false
  | some s =>
    let value := pyStrip s
    if value = "" then false
    else
      let lowered := pyLower value
      if lowered = "-" ∨ lowered = "--" ∨ lowered = "none" ∨ lowered = "null" ∨
          lowered = "false" ∨ lowered = "0" then false
      else
        hasSubStr ".pdf" lowered || hasSubStr ".doc" lowered ||
        hasSubStr ".docx" lowered || hasSubStr ".zip" lowered ||
        hasSubStr "download" lowered || hasSubStr "/" lowered

/-- grade_fetcher.has_notebook_file: the scan status must explicitly be
the file sentinel and at least one file field must look real. -/
def has_notebook_file (item : ApiItem) : Bool :=
  let scan_status := pyLower (pyStrip (item.ScanStatus.getD ""))
  if scan_status ≠ "file" then false
  else looks_like_file_reference item.File || looks_like_file_reference item.ScanFileName

/-- datetime.strptime with format "%Y-%m-%d" plus calendar validation. -/
def parseDashDate (s : List Char) : Option (Nat × Nat × Nat) :=
  match splitChar '-' s with
  | [y, mo, d] =>
    if yearOk y && monthOk mo && dayOk d then
      let yv := toValD y
      let mv := toValD mo
      let dv := toValD d
      if decide (1 ≤ yv) && decide (dv ≤ daysInMonth yv mv) then some (yv, mv, dv) else none
    else none
  | _ => none

/-- datetime.strptime with format "%Y-%m-%d %H:%M" plus calendar
validation. -/
def parseDashDateTime (s : List Char) : Option (Nat × Nat × Nat × Nat × Nat) :=
  match splitChar ' ' s with
  | [dpart, tpart] =>
    match parseDashDate dpart, splitChar ':' tpart with
    | some (yv, mv, dv), [h, mi] =>
      if hourOk h && minuteOk mi then some (yv, mv, dv, toValD h, toValD mi) else none
    | _, _ => none
  | _ => none

/-- grade_fetcher.normalize_api_date: try the four formats on the raw
value, then the two date formats on the part before a T, else return
that part. -/
def normalize_api_date (raw : String) : String :=
  if raw = "" then ""
  else
    let candidate : List Char := ((splitChar 'T' raw.data).headD [])
    match parseDashDate raw.data with
    | some (y, mo, d) => ⟨isoDateL y mo d⟩
    | none =>
      match parseSlashDate raw.data with
      | some (y, mo, d) => ⟨isoDateL y mo d⟩
      | none =>
        match parseSlashDateTime raw.data with
        | some (y, mo, d, h, mi) => ⟨isoDateTimeL y mo d h mi⟩
        | none =>
          match parseDashDateTime raw.data with
          | some (y, mo, d, h, mi) => ⟨isoDateTimeL y mo d h mi⟩
          | none =>
            match parseDashDate candidate with
            | some (y, mo, d) => ⟨isoDateL y mo d⟩
            | none =>
              match parseSlashDate candidate with
              | some (y, mo, d) => ⟨isoDateL y mo d⟩
              | none => ⟨candidate⟩

/-- grade_fetcher.process_grades: map each API item to a raw record and
drop the rows without a resolved course. -/
def process_grades (raw_data : List ApiItem) : List RawRec :=
  raw_data.filterMap (fun item =>
    let record : RawRec :=
      ⟨if get_val item.CourseDescription ≠ "" then get_val item.CourseDescription
        else get_val item.Course,
       get_val item.FinalGrade,
       get_val item.DueDescription,
       get_val item.AssignmentDescription,
       normalize_api_date (get_val item.DueDate),
       PyVal.pyBool (has_notebook_file item),
       ""⟩
    if record.course ≠ "" then some record else none)

/-- The canonical column names of the header alias table. -/
inductive HKey where
  | course | grade | moed | date | term
  deriving DecidableEq, Repr

/-- HEADER_ALIASES of main.py and robust_scraper.py, in iteration
order. -/
def header_aliases : List (HKey × String) :=
  [(HKey.course, "\u05E9\u05DD \u05D4\u05E7\u05D5\u05E8\u05E1"),
   (HKey.grade, "\u05E6\u05D9\u05D5\u05DF"),
   (HKey.moed, "\u05DE\u05D5\u05E2\u05D3"),
   (HKey.date, "\u05EA\u05D0\u05E8\u05D9\u05DA \u05D5\u05E9\u05E2\u05D4"),
   (HKey.term, "\u05E1\u05D5\u05D2")]

/-- main.header_to_key (identical in robust_scraper.py): normalize the
header and return the first aliased key contained in it. -/
def header_to_key (header_text : String) : Option HKey :=
  let header := normalize_text header_text
  if header = "" then none
  else (header_aliases.find? (fun kv => hasSubStr kv.2 header)).map Prod.fst

/-- Set one canonical column of a record under construction. -/
def setField (r : RawRec) (k : HKey) (v : String) : RawRec :=
  match k with
  | HKey.course => { r with course := v }
  | HKey.grade => { r with grade := v }
  | HKey.moed => { r with moed := v }
  | HKey.date => { r with date := v }
  | HKey.term => { r with term := v }

/-- main.parse_grade_row: fold the cells into the record, mapping each
cell header to a canonical column and normalizing dates. -/
def parse_grade_row (cells : List (String × String)) (raw_text : String)
    (notebook_available : Bool) : RawRec :=
  cells.foldl (fun r cell =>
    match header_to_key cell.1 with
    | none => r
    | some k =>
      let value := normalize_text cell.2
      setField r k (if k = HKey.date then normalize_date value else value))
    ⟨"", "", "", "", "", PyVal.pyBool notebook_available, normalize_text raw_text⟩

/-- One td cell of a DOM table row: the data-header attribute and the
inner text. -/
structure DomCell where
  header : Option String
  text : String
  deriving DecidableEq, Repr

/-- The first button found in a DOM table row: its disabled attribute
and inner text. -/
structure DomButton where
  disabledAttr : Option String
  text : String
  deriving DecidableEq, Repr

/-- One tbody tr handle as read by main.extract_from_table. -/
structure DomRow where
  cells : List DomCell
  button : Option DomButton
  rowText : String
  deriving DecidableEq, Repr

/-- The literal compared against the notebook button text in
main.extract_from_table (the mojibake rendering found in the source file). -/
def buttonTextToken : String := "\u25CA\u00EE\u25CA\u00B6\u25CA\u00ED\u25CA\u2122"

/-- The record main.extract_from_table builds from one row, none when
the row has no cells. -/
def tableRowRecord (row : DomRow) : Option RawRec :=
  if row.cells = [] then none
  else
    let cells := row.cells.map (fun c => (normalize_text (c.header.getD ""), normalize_text c.text))
    let notebook_available :=
      match row.button with
      | none => false
      | some b => b.disabledAttr.isNone && hasSubStr buttonTextToken (normalize_text b.text)
    some (parse_grade_row cells row.rowText notebook_available)

/-- main.extract_from_table: build a record per non-empty row, then keep
the rows with a course or a grade. -/
def extract_from_table (rows : List DomRow) : List RawRec :=
  (rows.filterMap tableRowRecord).filter (fun r => decide (r.course ≠ "" ∨ r.grade ≠ ""))

/-- One tbody tr as read by RobustGradesScraper.scrape: visibility, the
td inner texts, the disabled state of the notebook button when such a button
exists, and the row text. -/
structure ScrapeRow where
  visible : Bool
  cellTexts : List String
  buttonDisabled : Option Bool
  rowText : String
  deriving DecidableEq, Repr

/-- The record RobustGradesScraper.scrape builds from one row with
cells: notebook availability from button enablement, then the cells
mapped through the positional header list. -/
def scrapeRowRecord (headers : List (Option HKey)) (row : ScrapeRow) : Option RawRec :=
  if row.cellTexts = [] then none
  else
    let nb :=
      match row.buttonDisabled with
      | none => false
      | some d => !d
    let base : RawRec := ⟨"", "", "", "", "", PyVal.pyBool nb, normalize_text row.rowText⟩
    some ((row.cellTexts.foldl (fun (st : RawRec × Nat) cell =>
      let r' :=
        match headers.getD st.2 none with
        | some k =>
          let val := normalize_text cell
          setField st.1 k (if k = HKey.date then normalize_date val else val)
        | none => st.1
      (r', st.2 + 1)) (base, 0)).1)

/-- RobustGradesScraper.scrape: map header texts through header_to_key,
then keep, among the visible rows with cells, exactly those whose built
record has a non-empty course. -/
def scrape (headerTexts : List String) (rows : List ScrapeRow) : List RawRec :=
  let headers := headerTexts.map header_to_key
  rows.filterMap (fun row =>
    if !row.visible then none
    else
      match scrapeRowRecord headers row with
      | none => none
      | some r => if r.course ≠ "" then some r else none)

/-- The previous Algebra snapshot record of the C1 scenario. -/
def algebraPrev : CRec := ⟨"Algebra", "85", "", "", "", "false", ""⟩

/-- The current Algebra raw row of the C1 scenario: grade 90, notebook
available (a Python bool True, as both extractors produce). -/
def algebraRow : RawRec := ⟨"Algebra", "90", "", "", "", PyVal.pyBool true, ""⟩

/-- The C1 environment: the API extractor returns the Algebra row and
the cache holds the previous Algebra record. -/
def envC1 : FetchEnv :=
  ⟨Except.ok [algebraRow], true, Except.ok [], [("Algebra", algebraPrev)]⟩

/-- A raw record with just a course and a date. -/
def recAD (course date : String) : RawRec :=
  ⟨course, "", "", "", date, PyVal.pyBool false, ""⟩

/-- The canonical record a bare course/date row canonicalizes to. -/
def crAD (course date : String) : CRec := ⟨course, "", "", "", date, "false", ""⟩

/-- Snapshot of the two-record C2 witness input. -/
def mC2 : List (String × CRec) :=
  [("A", crAD "A" "2024-01-01"), ("B", crAD "B" "")]

/-- Snapshot of the two-record C10 witness input. -/
def mW10 : List (String × CRec) := [("A", crAD "A" ""), ("B", crAD "B" "")]

/-- An empty canonical record. -/
def blankC : CRec := ⟨"", "", "", "", "", "false", ""⟩

/-- A six-record cache, larger than the critical threshold. -/
def cache6 : List (String × CRec) :=
  [("a", blankC), ("b", blankC), ("c", blankC), ("d", blankC), ("e", blankC), ("f", blankC)]

/-- C5 environment with both extractors empty and a large cache. -/
def envC5crit : FetchEnv := ⟨Except.ok [], true, Except.ok [], cache6⟩

/-- C5 environment with both extractors empty and an empty cache. -/
def envC5quiet : FetchEnv := ⟨Except.ok [], true, Except.ok [], []⟩

/-- A sample raw record returned by the DOM fallback in the C4 witness. -/
def recW4 : RawRec := ⟨"W", "100", "", "", "", PyVal.pyBool false, ""⟩

/-- C4 environment: empty primary result, successful fallback. -/
def envC4 : FetchEnv := ⟨Except.ok [], true, Except.ok [recW4], []⟩

/-- A current snapshot record for the C3 witness. -/
def c3cur : CRec := ⟨"Algebra", "90", "", "", "", "true", ""⟩

/-- The API item of the C8 witness: file scan status and a pdf file. -/
def itemW8 : ApiItem :=
  ⟨some "Calc", none, some "95", none, none, none, some "File", some "hw.pdf", none⟩

/-- The record process_grades builds from the C8 witness item. -/
def recW8 : RawRec := ⟨"Calc", "95", "", "", "", PyVal.pyBool true, ""⟩

/-- The grade column header text (the Hebrew grade alias). -/
def gradeHeaderText : String := "\u05E6\u05D9\u05D5\u05DF"

/-- The C9 counterexample row: visible, one grade cell, no course. -/
def cxRow9 : ScrapeRow := ⟨true, ["90"], none, "90"⟩

/-- The reading the claim gives of a usable filename/path field: present,
non-empty and non-placeholder after trimming, and containing one of the
known extension or path-like tokens. -/
def claimFileField (o : Option String) : Prop :=
  ∃ s, o = some s ∧ pyStrip s ≠ "" ∧
    pyLower (pyStrip s) ∉ (["-", "--", "none", "null", "false", "0"] : List String) ∧
    ∃ tok ∈ ([".pdf", ".doc", ".docx", ".zip", "download", "/"] : List String),
      hasSubStr tok (pyLower (pyStrip s)) = true

/-- The notebook-availability condition the claim states for an API item: the
scan status trimmed and lowercased equals "file" and at least one of the
File and ScanFileName fields is a usable file reference. -/
def claimNotebook (item : ApiItem) : Prop :=
  pyLower (pyStrip (item.ScanStatus.getD "")) = "file" ∧
  (claimFileField item.File ∨ claimFileField item.ScanFileName)

theorem splitWS_ne_nil (l : List Char) : splitWS l ≠ [] := by
  induction l with
  | nil => simp [splitWS]
  | cons c cs ih =>
    unfold splitWS
    rcases h : splitWS cs with _ | ⟨t, ts⟩
    · exact absurd h ih
    · by_cases hc : isPyWS c <;> simp [hc]

theorem mem_splitWS_not_ws {l t : List Char} (ht : t ∈ splitWS l) :
    ∀ c ∈ t, isPyWS c = false := by
  induction l generalizing t with
  | nil =>
    simp [splitWS] at ht
    subst ht; simp
  | cons c cs ih =>
    unfold splitWS at ht
    rcases h : splitWS cs with _ | ⟨u, us⟩
    · exact absurd h (splitWS_ne_nil cs)
    · rw [h] at ht
      by_cases hc : isPyWS c
      · simp only [if_pos hc] at ht
        rcases List.mem_cons.mp ht with rfl | ht2
        · simp
        · exact ih (h ▸ ht2)
      · simp only [if_neg hc] at ht
        rcases List.mem_cons.mp ht with rfl | ht2
        · intro x hx
          rcases List.mem_cons.mp hx with rfl | hx2
          · simpa using hc
          · exact ih (h ▸ List.mem_cons_self u us) x hx2
        · exact ih (h ▸ List.mem_cons_of_mem u ht2)

theorem mem_pySplit {l t : List Char} (ht : t ∈ pySplit l) :
    t ≠ [] ∧ ∀ c ∈ t, isPyWS c = false := by
  unfold pySplit at ht
  have h2 := List.mem_filter.mp ht
  refine ⟨?_, mem_splitWS_not_ws h2.1⟩
  have := h2.2
  cases t <;> simp_all

theorem splitWS_append {t : List Char} (l : List Char) {u : List Char}
    {us : List (List Char)} (htw : ∀ c ∈ t, isPyWS c = false)
    (h : splitWS l = u :: us) :
    splitWS (t ++ l) = (t ++ u) :: us := by
  induction t with
  | nil => simpa using h
  | cons c t2 ih =>
    have hc : isPyWS c = false := htw c (List.mem_cons_self _ _)
    have ih2 := ih (fun x hx => htw x (List.mem_cons_of_mem _ hx))
    simp only [List.cons_append]
    unfold splitWS
    rw [ih2, hc]
    simp

theorem pySplit_joinSp {toks : List (List Char)}
    (h : ∀ t ∈ toks, t ≠ [] ∧ ∀ c ∈ t, isPyWS c = false) :
    pySplit (joinSp toks) = toks := by
  induction toks with
  | nil => rfl
  | cons t ts ih =>
    obtain ⟨hne, hws⟩ := h t (List.mem_cons_self _ _)
    have hrest := fun x hx => h x (List.mem_cons_of_mem _ hx)
    cases ts with
    | nil =>
      have h2 : splitWS (t ++ ([] : List Char)) = (t ++ []) :: [] :=
        splitWS_append [] hws rfl
      simp only [List.append_nil] at h2
      simp only [joinSp]
      unfold pySplit
      rw [h2]
      have hte : t.isEmpty = false := by cases t <;> simp_all
      simp [List.filter, hte]
    | cons t2 ts2 =>
      have ih2 := ih hrest
      obtain ⟨v, vs, hv⟩ := List.exists_cons_of_ne_nil (splitWS_ne_nil (joinSp (t2 :: ts2)))
      have hsp : splitWS (' ' :: joinSp (t2 :: ts2)) = [] :: v :: vs := by
        unfold splitWS
        rw [hv]
        simp [isPyWS]
      have h2 : splitWS (t ++ ' ' :: joinSp (t2 :: ts2)) = (t ++ []) :: v :: vs :=
        splitWS_append (' ' :: joinSp (t2 :: ts2)) hws hsp
      simp only [List.append_nil] at h2
      have hj : joinSp (t :: t2 :: ts2) = t ++ ' ' :: joinSp (t2 :: ts2) := rfl
      unfold pySplit
      rw [hj, h2]
      have hfv : (v :: vs).filter (fun x => !x.isEmpty) = t2 :: ts2 := by
        have h3 : pySplit (joinSp (t2 :: ts2)) = t2 :: ts2 := ih2
        unfold pySplit at h3
        rw [hv] at h3
        exact h3
      have hte : t.isEmpty = false := by cases t <;> simp_all
      simp only [List.filter_cons, hte, Bool.not_false, if_true]
      rw [← hfv, List.filter_cons]

theorem mem_joinSp {toks : List (List Char)} {c : Char} (hc : c ∈ joinSp toks) :
    (∃ t ∈ toks, c ∈ t) ∨ c = ' ' := by
  induction toks with
  | nil => simp [joinSp] at hc
  | cons t ts ih =>
    cases ts with
    | nil =>
      left
      exact ⟨t, List.mem_cons_self _ _, by simpa [joinSp] using hc⟩
    | cons t2 ts2 =>
      have hj : joinSp (t :: t2 :: ts2) = t ++ ' ' :: joinSp (t2 :: ts2) := rfl
      rw [hj] at hc
      rcases List.mem_append.mp hc with h1 | h2
      · exact Or.inl ⟨t, List.mem_cons_self _ _, h1⟩
      · rcases List.mem_cons.mp h2 with rfl | h3
        · exact Or.inr rfl
        · rcases ih h3 with ⟨u, hu, hcu⟩ | h4
          · exact Or.inl ⟨u, List.mem_cons_of_mem _ hu, hcu⟩
          · exact Or.inr h4

theorem nbspReplace_eq_self {l : List Char} (h : ∀ c ∈ l, c ≠ '\u00A0') :
    nbspReplace l = l := by
  induction l with
  | nil => rfl
  | cons c cs ih =>
    unfold nbspReplace
    simp only [List.map_cons]
    rw [if_neg (h c (List.mem_cons_self _ _))]
    have := ih (fun x hx => h x (List.mem_cons_of_mem _ hx))
    unfold nbspReplace at this
    rw [this]

theorem normalizeTextL_idem (l : List Char) :
    normalizeTextL (normalizeTextL l) = normalizeTextL l := by
  have hprops : ∀ t ∈ pySplit (nbspReplace l), t ≠ [] ∧ ∀ c ∈ t, isPyWS c = false :=
    fun t ht => mem_pySplit ht
  have hno : ∀ c ∈ joinSp (pySplit (nbspReplace l)), c ≠ '\u00A0' := by
    intro c hc hceq
    rcases mem_joinSp hc with ⟨t, ht, hct⟩ | hsp
    · have hws := (hprops t ht).2 c hct
      rw [hceq] at hws
      exact absurd hws (by decide)
    · rw [hsp] at hceq
      exact absurd hceq (by decide)
  show normalizeTextL (joinSp (pySplit (nbspReplace l))) = joinSp (pySplit (nbspReplace l))
  unfold normalizeTextL
  rw [nbspReplace_eq_self hno, pySplit_joinSp hprops]

theorem digitChar_mem (n : Nat) : digitChar n ∈ digitChars := by
  unfold digitChar
  have hk : n % 10 < 10 := Nat.mod_lt _ (by norm_num)
  revert hk
  generalize n % 10 = k
  intro hk
  interval_cases k <;> decide

theorem digitChar_spec (n : Nat) :
    isPyWS (digitChar n) = false ∧ digitChar n ≠ '/' ∧ digitChar n ≠ '-' := by
  have h := digitChar_mem n
  have hall : ∀ c ∈ digitChars, isPyWS c = false ∧ c ≠ '/' ∧ c ≠ '-' := by decide
  exact hall _ h

theorem digit_ne_dash (n : Nat) : digitChar n ≠ '-' := (digitChar_spec n).2.2

theorem not_ws_ne_nbsp {c : Char} (h : isPyWS c = false) : c ≠ '\u00A0' := by
  intro he
  rw [he] at h
  exact absurd h (by decide)

theorem mem_pad2L {n : Nat} {c : Char} (h : c ∈ pad2L n) : ∃ k, c = digitChar k := by
  unfold pad2L at h
  rcases List.mem_cons.mp h with rfl | h2
  · exact ⟨n / 10, rfl⟩
  · rcases List.mem_cons.mp h2 with rfl | h3
    · exact ⟨n, rfl⟩
    · simp at h3

theorem mem_pad4L {n : Nat} {c : Char} (h : c ∈ pad4L n) : ∃ k, c = digitChar k := by
  unfold pad4L at h
  rcases List.mem_cons.mp h with rfl | h2
  · exact ⟨n / 1000, rfl⟩
  · rcases List.mem_cons.mp h2 with rfl | h3
    · exact ⟨n / 100, rfl⟩
    · rcases List.mem_cons.mp h3 with rfl | h4
      · exact ⟨n / 10, rfl⟩
      · rcases List.mem_cons.mp h4 with rfl | h5
        · exact ⟨n, rfl⟩
        · simp at h5

theorem isoDateL_chars {y m d : Nat} : ∀ c ∈ isoDateL y m d, isPyWS c = false ∧ c ≠ '/' := by
  intro c hc
  unfold isoDateL at hc
  have hdig : ∀ k : Nat, isPyWS (digitChar k) = false ∧ digitChar k ≠ '/' :=
    fun k => ⟨(digitChar_spec k).1, (digitChar_spec k).2.1⟩
  rcases List.mem_append.mp hc with h | h
  · rcases List.mem_append.mp h with h2 | h2
    · rcases mem_pad4L h2 with ⟨k, rfl⟩
      exact hdig k
    · rcases List.mem_cons.mp h2 with rfl | h3
      · exact ⟨by decide, by decide⟩
      · rcases mem_pad2L h3 with ⟨k, rfl⟩
        exact hdig k
  · rcases List.mem_cons.mp h with rfl | h2
    · exact ⟨by decide, by decide⟩
    · rcases mem_pad2L h2 with ⟨k, rfl⟩
      exact hdig k

theorem timePartL_chars {h mi : Nat} : ∀ c ∈ timePartL h mi, isPyWS c = false ∧ c ≠ '/' := by
  intro c hc
  unfold timePartL at hc
  have hdig : ∀ k : Nat, isPyWS (digitChar k) = false ∧ digitChar k ≠ '/' :=
    fun k => ⟨(digitChar_spec k).1, (digitChar_spec k).2.1⟩
  rcases List.mem_append.mp hc with h2 | h2
  · rcases mem_pad2L h2 with ⟨k, rfl⟩
    exact hdig k
  · rcases List.mem_cons.mp h2 with rfl | h3
    · exact ⟨by decide, by decide⟩
    · rcases mem_pad2L h3 with ⟨k, rfl⟩
      exact hdig k

theorem isoDateL_ne_nil (y m d : Nat) : isoDateL y m d ≠ [] := by
  simp [isoDateL, pad4L]

theorem timePartL_ne_nil (h mi : Nat) : timePartL h mi ≠ [] := by
  simp [timePartL, pad2L]

theorem isoDateL_shape (y m d : Nat) : ∃ r, isoDateL y m d = digitChar (y / 1000) :: r :=
  ⟨_, rfl⟩

theorem iso_dt_shape (y m d h mi : Nat) :
    ∃ r, isoDateTimeL y m d h mi = digitChar (y / 1000) :: r :=
  ⟨_, rfl⟩

theorem head_digit_not_sentinel {X : List Char} {n : Nat} {r : List Char}
    (hsh : X = digitChar n :: r) : ¬(X = [] ∨ X = ['-'] ∨ X = ['-', '-']) := by
  subst hsh
  have hd : digitChar n ≠ '-' := digit_ne_dash n
  push_neg
  refine ⟨by simp, ?_, ?_⟩ <;>
    · intro h
      simp at h
      exact hd h.1

theorem splitChar_no_sep {sep : Char} {l : List Char} (h : ∀ c ∈ l, c ≠ sep) :
    splitChar sep l = [l] := by
  induction l with
  | nil => rfl
  | cons c cs ih =>
    unfold splitChar
    rw [ih (fun x hx => h x (List.mem_cons_of_mem _ hx))]
    simp [h c (List.mem_cons_self _ _)]

theorem parse_none_of_no_slash {s : List Char} (h : ∀ c ∈ s, c ≠ '/') :
    parseSlashDateTime s = none ∧ parseSlashDate s = none := by
  unfold parseSlashDateTime parseSlashDate
  rw [splitChar_no_sep h]
  exact ⟨rfl, rfl⟩

theorem iso_dt_clean (y m d h mi : Nat) :
    normalizeTextL (isoDateTimeL y m d h mi) = isoDateTimeL y m d h mi ∧
    ndCleanL (isoDateTimeL y m d h mi) = isoDateTimeL y m d h mi := by
  have htoks : ∀ t ∈ [isoDateL y m d, timePartL h mi],
      t ≠ [] ∧ ∀ c ∈ t, isPyWS c = false := by
    intro t ht
    rcases List.mem_cons.mp ht with rfl | ht2
    · exact ⟨isoDateL_ne_nil y m d, fun c hc => (isoDateL_chars c hc).1⟩
    · rcases List.mem_cons.mp ht2 with rfl | ht3
      · exact ⟨timePartL_ne_nil h mi, fun c hc => (timePartL_chars c hc).1⟩
      · simp at ht3
  have hjoin : isoDateTimeL y m d h mi = joinSp [isoDateL y m d, timePartL h mi] := rfl
  have hsplit : pySplit (isoDateTimeL y m d h mi) = [isoDateL y m d, timePartL h mi] := by
    rw [hjoin]
    exact pySplit_joinSp htoks
  have hmemchar : ∀ c ∈ isoDateTimeL y m d h mi, c = ' ' ∨ (isPyWS c = false ∧ c ≠ '/') := by
    intro c hc
    unfold isoDateTimeL at hc
    rcases List.mem_append.mp hc with h2 | h2
    · exact Or.inr (isoDateL_chars c h2)
    · rcases List.mem_cons.mp h2 with rfl | h3
      · exact Or.inl rfl
      · exact Or.inr (timePartL_chars c h3)
  have hno : ∀ c ∈ isoDateTimeL y m d h mi, c ≠ '\u00A0' := by
    intro c hc
    rcases hmemchar c hc with rfl | ⟨hws, _⟩
    · decide
    · exact not_ws_ne_nbsp hws
  have hnorm : normalizeTextL (isoDateTimeL y m d h mi) = isoDateTimeL y m d h mi := by
    unfold normalizeTextL
    rw [nbspReplace_eq_self hno, hsplit, ← hjoin]
  refine ⟨hnorm, ?_⟩
  have hnosl : ∀ c ∈ isoDateTimeL y m d h mi, c ≠ '/' := by
    intro c hc
    rcases hmemchar c hc with rfl | ⟨_, hs⟩
    · decide
    · exact hs
  have hjmk : ndJoined (isoDateTimeL y m d h mi) = isoDateTimeL y m d h mi := by
    unfold ndJoined
    rw [hsplit]
    exact hjoin.symm
  obtain ⟨r, hsh⟩ := iso_dt_shape y m d h mi
  have hsent := head_digit_not_sentinel hsh
  have hpar := parse_none_of_no_slash hnosl
  unfold ndCleanL
  rw [if_neg hsent, hjmk, hpar.1, hpar.2, if_neg (by rw [hsplit]; simp)]

theorem iso_d_clean (y m d : Nat) :
    normalizeTextL (isoDateL y m d) = isoDateL y m d ∧
    ndCleanL (isoDateL y m d) = isoDateL y m d := by
  have htoks : ∀ t ∈ [isoDateL y m d], t ≠ [] ∧ ∀ c ∈ t, isPyWS c = false := by
    intro t ht
    rcases List.mem_cons.mp ht with rfl | ht2
    · exact ⟨isoDateL_ne_nil y m d, fun c hc => (isoDateL_chars c hc).1⟩
    · simp at ht2
  have hjoin : isoDateL y m d = joinSp [isoDateL y m d] := rfl
  have hsplit : pySplit (isoDateL y m d) = [isoDateL y m d] := by
    rw [hjoin]
    exact pySplit_joinSp htoks
  have hno : ∀ c ∈ isoDateL y m d, c ≠ '\u00A0' :=
    fun c hc => not_ws_ne_nbsp (isoDateL_chars c hc).1
  have hnorm : normalizeTextL (isoDateL y m d) = isoDateL y m d := by
    unfold normalizeTextL
    rw [nbspReplace_eq_self hno, hsplit]
    rfl
  refine ⟨hnorm, ?_⟩
  have hnosl : ∀ c ∈ isoDateL y m d, c ≠ '/' := fun c hc => (isoDateL_chars c hc).2
  have hjmk : ndJoined (isoDateL y m d) = isoDateL y m d := by
    unfold ndJoined
    rw [hsplit]
  obtain ⟨r, hsh⟩ := isoDateL_shape y m d
  have hsent := head_digit_not_sentinel hsh
  have hpar := parse_none_of_no_slash hnosl
  unfold ndCleanL
  rw [if_neg hsent, hjmk, hpar.1, hpar.2, if_neg (by rw [hsplit]; simp)]

theorem ndL_idem (l : List Char) :
    ndCleanL (normalizeTextL (ndCleanL (normalizeTextL l))) =
      ndCleanL (normalizeTextL l) := by
  have hcc : normalizeTextL (normalizeTextL l) = normalizeTextL l := normalizeTextL_idem l
  by_cases h1 : normalizeTextL l = [] ∨ normalizeTextL l = ['-'] ∨ normalizeTextL l = ['-', '-']
  · have e1 : ndCleanL (normalizeTextL l) = [] := by
      unfold ndCleanL
      rw [if_pos h1]
    rw [e1]
    rfl
  · by_cases h2 : pySplit (normalizeTextL l) = []
    · have e1 : ndCleanL (normalizeTextL l) = [] := by
        unfold ndCleanL
        rw [if_neg h1, if_pos h2]
      rw [e1]
      rfl
    · rcases hp1 : parseSlashDateTime (ndJoined (normalizeTextL l)) with _ | ⟨y, mo, d, h, mi⟩
      · rcases hp2 : parseSlashDate (ndJoined (normalizeTextL l)) with _ | ⟨y, mo, d⟩
        · have e1 : ndCleanL (normalizeTextL l) = normalizeTextL l := by
            unfold ndCleanL
            rw [if_neg h1, if_neg h2, hp1, hp2]
          rw [e1, hcc, e1]
        · have e1 : ndCleanL (normalizeTextL l) = isoDateL y mo d := by
            unfold ndCleanL
            rw [if_neg h1, if_neg h2, hp1, hp2]
          rw [e1, (iso_d_clean y mo d).1, (iso_d_clean y mo d).2]
      · have e1 : ndCleanL (normalizeTextL l) = isoDateTimeL y mo d h mi := by
          unfold ndCleanL
          rw [if_neg h1, if_neg h2, hp1]
        rw [e1, (iso_dt_clean y mo d h mi).1, (iso_dt_clean y mo d h mi).2]

theorem pySplit_normalizeTextL (l : List Char) :
    pySplit (normalizeTextL l) = pySplit (nbspReplace l) :=
  pySplit_joinSp (fun _ ht => mem_pySplit ht)

/-- C6: normalize_date is idempotent on every input string, and at the
concrete inputs of the claim it maps "05/03/2024" to "2024-03-05" and
the "-" sentinel to the empty string. -/
theorem c6_normalize_date_idem :
    (∀ x : String, normalize_date (normalize_date x) = normalize_date x) ∧
    normalize_date "05/03/2024" = "2024-03-05" ∧ normalize_date "-" = "" := by
  refine ⟨fun x => ?_, by decide, by decide⟩
  exact congrArg String.mk (ndL_idem x.data)

/-- C7 counterexample: the input "abc " is non-empty, no sentinel, and
parsed by neither attempted date format, yet normalize_date does not
return it unchanged (it returns the whitespace-trimmed "abc"). -/
theorem c7_unchanged_cx :
    normalize_date "abc " ≠ "abc " ∧ "abc " ≠ "" ∧ "abc " ≠ "-" ∧ "abc " ≠ "--" ∧
    parseSlashDateTime (ndJoined (normalize_text "abc ").data) = none ∧
    parseSlashDate (ndJoined (normalize_text "abc ").data) = none := by
  exact ⟨by decide, by decide, by decide, by decide, by decide, by decide⟩

/-- C7 amended: normalize_date is total (the embedding returns a value
for every string, mirroring how the code catches ValueError), and when
the text-normalized input is non-empty, no sentinel, and parsed by
neither attempted date format, normalize_date returns the
text-normalized input; hence it returns the input itself exactly when
the input is already whitespace-normalized. -/
theorem c7_unparsed_amended (s : String)
    (h1 : normalize_text s ≠ "") (h2 : normalize_text s ≠ "-")
    (h3 : normalize_text s ≠ "--")
    (h4 : parseSlashDateTime (ndJoined (normalize_text s).data) = none)
    (h5 : parseSlashDate (ndJoined (normalize_text s).data) = none) :
    normalize_date s = normalize_text s ∧
      (normalize_text s = s → normalize_date s = s) := by
  have hL1 : normalizeTextL s.data ≠ [] := fun h => h1 (congrArg String.mk h)
  have hL2 : normalizeTextL s.data ≠ ['-'] := fun h => h2 (congrArg String.mk h)
  have hL3 : normalizeTextL s.data ≠ ['-', '-'] := fun h => h3 (congrArg String.mk h)
  have hsent : ¬(normalizeTextL s.data = [] ∨ normalizeTextL s.data = ['-'] ∨
      normalizeTextL s.data = ['-', '-']) := by
    push_neg
    exact ⟨hL1, hL2, hL3⟩
  have hps : pySplit (normalizeTextL s.data) ≠ [] := by
    rw [pySplit_normalizeTextL]
    intro h0
    apply hL1
    show joinSp (pySplit (nbspReplace s.data)) = []
    rw [h0]
    rfl
  have h4x : parseSlashDateTime (ndJoined (normalizeTextL s.data)) = none := h4
  have h5x : parseSlashDate (ndJoined (normalizeTextL s.data)) = none := h5
  have hmain : normalize_date s = normalize_text s := by
    show (⟨ndCleanL (normalizeTextL s.data)⟩ : String) = ⟨normalizeTextL s.data⟩
    congr 1
    unfold ndCleanL
    rw [if_neg hsent, if_neg hps, h4x, h5x]
  exact ⟨hmain, fun hs => by rw [hmain, hs]⟩

/-- C7 witness: the amended theorem applied at the concrete input
"abc ". -/
theorem c7_unparsed_amended_w :
    normalize_text "abc " ≠ "" ∧ normalize_text "abc " ≠ "-" ∧
    normalize_text "abc " ≠ "--" ∧
    parseSlashDateTime (ndJoined (normalize_text "abc ").data) = none ∧
    parseSlashDate (ndJoined (normalize_text "abc ").data) = none ∧
    normalize_date "abc " = normalize_text "abc " :=
  ⟨by decide, by decide, by decide, by decide, by decide,
    (c7_unparsed_amended "abc " (by decide) (by decide) (by decide) (by decide)
      (by decide)).1⟩

theorem dlookup_eq_none {α : Type} {m : List (String × α)} {k : String} :
    dlookup m k = none ↔ k ∉ m.map Prod.fst := by
  induction m with
  | nil => simp [dlookup]
  | cons kv t ih =>
    obtain ⟨k0, v0⟩ := kv
    unfold dlookup
    by_cases h : k0 = k
    · subst h
      simp
    · rw [if_neg h, ih]
      simp only [List.map_cons, List.mem_cons]
      constructor
      · intro hn hor
        rcases hor with rfl | hm
        · exact h rfl
        · exact hn hm
      · intro hn hm
        exact hn (Or.inr hm)

theorem dlookup_cons_self {α : Type} (k : String) (v : α) (t : List (String × α)) :
    dlookup ((k, v) :: t) k = some v := by
  show (if k = k then some v else dlookup t k) = some v
  rw [if_pos rfl]

theorem dlookup_cons_ne {α : Type} {k k' : String} (h : k ≠ k') (v : α)
    (t : List (String × α)) : dlookup ((k, v) :: t) k' = dlookup t k' := by
  show (if k = k' then some v else dlookup t k') = dlookup t k'
  rw [if_neg h]

theorem dlookup_of_mem_nodup {α : Type} {m : List (String × α)} {k : String} {v : α}
    (hmem : (k, v) ∈ m) (hnd : (m.map Prod.fst).Nodup) : dlookup m k = some v := by
  induction m with
  | nil => simp at hmem
  | cons kv t ih =>
    obtain ⟨k0, v0⟩ := kv
    obtain ⟨hk0, hnd2⟩ := List.nodup_cons.mp hnd
    have hk0x : k0 ∉ List.map Prod.fst t := hk0
    rcases List.mem_cons.mp hmem with heq | hmem2
    · obtain ⟨rfl, rfl⟩ := Prod.mk.injEq .. ▸ heq
      exact dlookup_cons_self k v t
    · have hk : k0 ≠ k := by
        intro he
        subst he
        have hin : k0 ∈ List.map Prod.fst t := List.mem_map_of_mem Prod.fst hmem2
        exact hk0x hin
      rw [dlookup_cons_ne hk]
      exact ih hmem2 hnd2

theorem get_changes_cons (kv : String × CRec) (rest previous : List (String × CRec)) :
    get_changes (kv :: rest) previous =
      (if dlookup previous kv.1 = some kv.2 then []
       else [(kv.1, (dlookup previous kv.1, kv.2))]) ++ get_changes rest previous := by
  unfold get_changes
  rw [List.filterMap_cons]
  by_cases h : dlookup previous kv.1 = some kv.2 <;> simp [h]

theorem dlookup_get_changes (current previous : List (String × CRec))
    (hnd : (current.map Prod.fst).Nodup) (k : String) :
    dlookup (get_changes current previous) k =
      match dlookup current k with
      | none => none
      | some v =>
        if dlookup previous k = some v then none else some (dlookup previous k, v) := by
  induction current with
  | nil => rfl
  | cons kv rest ih =>
    obtain ⟨k0, v0⟩ := kv
    obtain ⟨hk0, hnd2⟩ := List.nodup_cons.mp hnd
    have hk0x : k0 ∉ List.map Prod.fst rest := hk0
    rw [get_changes_cons]
    by_cases hk : k0 = k
    · subst hk
      rw [dlookup_cons_self]
      by_cases hp : dlookup previous k0 = some v0
      · rw [if_pos hp, List.nil_append]
        show dlookup (get_changes rest previous) k0 =
          if dlookup previous k0 = some v0 then none else some (dlookup previous k0, v0)
        rw [if_pos hp, ih hnd2]
        have hrn : dlookup rest k0 = none := dlookup_eq_none.mpr hk0x
        rw [hrn]
      · rw [if_neg hp, List.singleton_append]
        show dlookup ((k0, (dlookup previous k0, v0)) :: get_changes rest previous) k0 =
          if dlookup previous k0 = some v0 then none else some (dlookup previous k0, v0)
        rw [dlookup_cons_self, if_neg hp]
    · rw [dlookup_cons_ne hk]
      by_cases hp : dlookup previous k0 = some v0
      · rw [if_pos hp, List.nil_append, ih hnd2]
      · rw [if_neg hp, List.singleton_append, dlookup_cons_ne hk, ih hnd2]

theorem get_changes_eq_nil {current previous : List (String × CRec)}
    (h : ∀ kv ∈ current, dlookup previous kv.1 = some kv.2) :
    get_changes current previous = [] := by
  unfold get_changes
  rw [List.filterMap_eq_nil_iff]
  intro kv hkv
  rw [if_pos (h kv hkv)]

/-- C3: the diff contains exactly those keys of current whose record
differs by full value equality from previous (an absent previous entry
counts as different), mapped to the pair of previous and current
records; identical snapshots diff to empty; a key absent from current
never appears. -/
theorem c3_get_changes_exact (current previous : List (String × CRec))
    (hnd : (current.map Prod.fst).Nodup) :
    (∀ k, dlookup (get_changes current previous) k =
        match dlookup current k with
        | none => none
        | some v =>
          if dlookup previous k = some v then none
          else some (dlookup previous k, v)) ∧
    get_changes current current = [] ∧
    (∀ k v, dlookup current k = some v → dlookup previous k ≠ some v →
        dlookup (get_changes current previous) k = some (dlookup previous k, v)) ∧
    (∀ k, dlookup current k = none → dlookup (get_changes current previous) k = none) := by
  refine ⟨fun k => dlookup_get_changes current previous hnd k,
    get_changes_eq_nil (fun kv hkv => dlookup_of_mem_nodup hkv hnd),
    fun k v hv hne => ?_, fun k hnone => ?_⟩
  · rw [dlookup_get_changes current previous hnd k, hv]
    show (if dlookup previous k = some v then none else some (dlookup previous k, v)) =
      some (dlookup previous k, v)
    rw [if_neg hne]
  · rw [dlookup_get_changes current previous hnd k, hnone]

/-- C3 witness: the theorem applied to a one-record current snapshot
and an empty previous snapshot reports the record as new. -/
theorem c3_get_changes_exact_w :
    (([("Algebra", c3cur)].map Prod.fst).Nodup) ∧
    dlookup (get_changes [("Algebra", c3cur)] []) "Algebra" = some (none, c3cur) :=
  ⟨by decide,
    (c3_get_changes_exact [("Algebra", c3cur)] [] (by decide)).2.2.1 "Algebra" c3cur
      (by decide) (by decide)⟩

theorem dlookup_dictInsert_self {α : Type} (m : List (String × α)) (k : String) (v : α) :
    dlookup (dictInsert m k v) k = some v := by
  induction m with
  | nil => exact dlookup_cons_self k v []
  | cons kv t ih =>
    obtain ⟨k0, v0⟩ := kv
    by_cases h : k0 = k
    · subst h
      show dlookup (if k0 = k0 then (k0, v) :: t else (k0, v0) :: dictInsert t k0 v) k0 = some v
      rw [if_pos rfl]
      exact dlookup_cons_self k0 v t
    · show dlookup (if k0 = k then (k0, v) :: t else (k0, v0) :: dictInsert t k v) k = some v
      rw [if_neg h, dlookup_cons_ne h]
      exact ih

theorem dlookup_dictInsert_ne {α : Type} {key k : String} (hne : key ≠ k)
    (m : List (String × α)) (v : α) :
    dlookup (dictInsert m key v) k = dlookup m k := by
  induction m with
  | nil =>
    show dlookup [(key, v)] k = dlookup [] k
    rw [dlookup_cons_ne hne]
  | cons kv t ih =>
    obtain ⟨k0, v0⟩ := kv
    by_cases h : k0 = key
    · subst h
      show dlookup (if k0 = k0 then (k0, v) :: t else (k0, v0) :: dictInsert t k0 v) k =
        dlookup ((k0, v0) :: t) k
      rw [if_pos rfl, dlookup_cons_ne hne, dlookup_cons_ne hne]
    · show dlookup (if k0 = key then (k0, v) :: t else (k0, v0) :: dictInsert t key v) k =
        dlookup ((k0, v0) :: t) k
      rw [if_neg h]
      by_cases h2 : k0 = k
      · subst h2
        rw [dlookup_cons_self, dlookup_cons_self]
      · rw [dlookup_cons_ne h2, dlookup_cons_ne h2, ih]

theorem keys_dictInsert {α : Type} (m : List (String × α)) (k : String) (v : α) :
    (dictInsert m k v).map Prod.fst =
      if (dlookup m k).isSome then m.map Prod.fst else m.map Prod.fst ++ [k] := by
  induction m with
  | nil => rfl
  | cons kv t ih =>
    obtain ⟨k0, v0⟩ := kv
    by_cases h : k0 = k
    · subst h
      show ((if k0 = k0 then (k0, v) :: t else (k0, v0) :: dictInsert t k0 v).map Prod.fst) = _
      rw [if_pos rfl, dlookup_cons_self]
      rfl
    · show ((if k0 = k then (k0, v) :: t else (k0, v0) :: dictInsert t k v).map Prod.fst) = _
      rw [if_neg h, dlookup_cons_ne h]
      show k0 :: (dictInsert t k v).map Prod.fst = _
      rw [ih]
      by_cases h2 : (dlookup t k).isSome <;> simp [h2]

theorem nodup_keys_dictInsert {α : Type} {m : List (String × α)}
    (hnd : (m.map Prod.fst).Nodup) (k : String) (v : α) :
    ((dictInsert m k v).map Prod.fst).Nodup := by
  rw [keys_dictInsert]
  rcases hdl : dlookup m k with _ | w
  · simp only [Option.isSome_none, Bool.false_eq_true, if_false]
    have hk : k ∉ m.map Prod.fst := dlookup_eq_none.mp hdl
    simp [List.nodup_append, hnd, hk]
  · simp [hnd]

theorem length_dictInsert_le {α : Type} (m : List (String × α)) (k : String) (v : α) :
    (dictInsert m k v).length ≤ m.length + 1 := by
  induction m with
  | nil => simp [dictInsert]
  | cons kv t ih =>
    obtain ⟨k0, v0⟩ := kv
    show (if k0 = k then (k0, v) :: t else (k0, v0) :: dictInsert t k v).length ≤
      t.length + 1 + 1
    by_cases h : k0 = k
    · rw [if_pos h]
      simp
    · rw [if_neg h]
      simp only [List.length_cons]
      omega

theorem canonStep_ok {m : List (String × CRec)} {rec : RawRec} {m1 : List (String × CRec)}
    (h : canonStep m rec = Except.ok m1) :
    ∃ b, is_truthy rec.notebook_available = Except.ok b ∧
      m1 = dictInsert m (canonKey m rec)
        ⟨pyStrip rec.course, pyStrip rec.grade, pyStrip rec.term, pyStrip rec.moed,
         pyStrip rec.date, if b then "true" else "false", rec.raw_text⟩ := by
  unfold canonStep at h
  rcases ht : is_truthy rec.notebook_available with e | b
  · rw [ht] at h
    simp at h
  · rw [ht] at h
    rw [Except.ok.injEq] at h
    exact ⟨b, rfl, h.symm⟩

theorem canonValueOf_eq {rec : RawRec} {b : Bool}
    (h : is_truthy rec.notebook_available = Except.ok b) :
    canonValueOf rec = some ⟨pyStrip rec.course, pyStrip rec.grade, pyStrip rec.term,
      pyStrip rec.moed, pyStrip rec.date, if b then "true" else "false", rec.raw_text⟩ := by
  unfold canonValueOf
  rw [h]

theorem canonAux_nodup_len : ∀ (recs : List RawRec) (m m1 : List (String × CRec)),
    canonAux m recs = Except.ok m1 → (m.map Prod.fst).Nodup →
    (m1.map Prod.fst).Nodup ∧ m1.length ≤ m.length + recs.length := by
  intro recs
  induction recs with
  | nil =>
    intro m m1 h hnd
    simp [canonAux] at h
    subst h
    exact ⟨hnd, by omega⟩
  | cons rec rest ih =>
    intro m m1 h hnd
    unfold canonAux at h
    rcases hs : canonStep m rec with e | m2
    · rw [hs] at h
      simp at h
    · rw [hs] at h
      obtain ⟨b, hb, hm2⟩ := canonStep_ok hs
      subst hm2
      obtain ⟨ha, hlen⟩ := ih _ m1 h (nodup_keys_dictInsert hnd _ _)
      have hlen2 := length_dictInsert_le m (canonKey m rec)
        (⟨pyStrip rec.course, pyStrip rec.grade, pyStrip rec.term, pyStrip rec.moed,
          pyStrip rec.date, if b then "true" else "false", rec.raw_text⟩ : CRec)
      refine ⟨ha, ?_⟩
      simp only [List.length_cons]
      omega

/-- C1 (code bug): canonicalizing the current row of the C1 scenario — a
record with the notebook available, where notebook_available is the
Python bool True — raises AttributeError inside _is_truthy instead of
producing a snapshot, so the cycle aborts with an error rather than the
single-entry change set the claim describes. -/
theorem c1_canonicalize_raises :
    canonicalize [algebraRow] = Except.error PyErr.attributeError ∧
    (monitor_grades_with_fallback envC1).outcome =
      Except.error (FetchErr.pyError PyErr.attributeError) := by
  exact ⟨by decide, by decide⟩

/-- C2 counterexample: three records sharing a base key, the last two
with the same date, fold into only two snapshot entries: the third
date-disambiguated key of the third record collides with the key of the second record
and overwrites it, losing a record. -/
theorem c2_one_entry_per_record_cx :
    (canonicalize [recAD "A" "2024-01-01", recAD "A" "2024-01-02",
        recAD "A" "2024-01-02"]).map List.length = Except.ok 2 ∧
    [recAD "A" "2024-01-01", recAD "A" "2024-01-02", recAD "A" "2024-01-02"].length = 3 := by
  exact ⟨by decide, by decide⟩

/-- C2 amended: the canonicalizer produces at most one snapshot entry
per input record, with pairwise-distinct keys; a record can however be
folded onto an already used key — losing the earlier record — when
three or more records share a base key with repeated dates. -/
theorem c2_canonicalize_amended (recs : List RawRec) (m : List (String × CRec))
    (h : canonicalize recs = Except.ok m) :
    (m.map Prod.fst).Nodup ∧ m.length ≤ recs.length := by
  have h2 := canonAux_nodup_len recs [] m h (by simp)
  simpa using h2

/-- C2 witness: the amended theorem applied to a concrete two-record
input. -/
theorem c2_canonicalize_amended_w :
    canonicalize [recAD "A" "2024-01-01", recAD "B" ""] = Except.ok mC2 ∧
    ((mC2.map Prod.fst).Nodup ∧ mC2.length ≤ 2) :=
  ⟨by decide, c2_canonicalize_amended [recAD "A" "2024-01-01", recAD "B" ""] mC2 (by decide)⟩

theorem suffixLoop_shape (m : List (String × CRec)) (base : String) :
    ∀ fuel n, ∃ k, suffixLoop m base fuel n = suffixKey base k := by
  intro fuel
  induction fuel with
  | zero => exact fun n => ⟨n, rfl⟩
  | succ f ih =>
    intro n
    unfold suffixLoop
    by_cases h : (dlookup m (suffixKey base n)).isSome
    · rw [if_pos h]
      exact ih (n + 1)
    · rw [if_neg h]
      exact ⟨n, rfl⟩

theorem canonBase_eq {m : List (String × CRec)} {rec : RawRec}
    (hc : pyStrip rec.course ≠ "") : canonBase m rec = baseKeyOf rec := by
  unfold canonBase baseKeyOf
  dsimp only
  rw [if_pos hc, if_pos hc]

theorem canonKey_of_not_mem {m : List (String × CRec)} {rec : RawRec}
    (h : dlookup m (canonBase m rec) = none) : canonKey m rec = canonBase m rec := by
  unfold canonKey
  rw [h]

theorem canonKey_of_mem {m : List (String × CRec)} {rec : RawRec} {ex : CRec}
    (h : dlookup m (canonBase m rec) = some ex) :
    (∃ d, canonKey m rec = canonBase m rec ++ " | " ++ d) ∨
    (∃ t, canonKey m rec = canonBase m rec ++ " (" ++ t ++ ")") := by
  have hck : canonKey m rec =
      if pyStrip rec.date ≠ "" ∧ ex.date ≠ pyStrip rec.date then
        canonBase m rec ++ " | " ++ pyStrip rec.date
      else suffixLoop m (canonBase m rec) (m.length + 1) 2 := by
    unfold canonKey
    rw [h]
  rw [hck]
  by_cases hdate : pyStrip rec.date ≠ "" ∧ ex.date ≠ pyStrip rec.date
  · rw [if_pos hdate]
    exact Or.inl ⟨pyStrip rec.date, rfl⟩
  · rw [if_neg hdate]
    obtain ⟨n, hn⟩ := suffixLoop_shape m (canonBase m rec) (m.length + 1) 2
    exact Or.inr ⟨Nat.repr n, by rw [hn]; rfl⟩

theorem canonKey_shape (m : List (String × CRec)) (rec : RawRec) :
    canonKey m rec = canonBase m rec ∨
    (∃ d, canonKey m rec = canonBase m rec ++ " | " ++ d) ∨
    (∃ t, canonKey m rec = canonBase m rec ++ " (" ++ t ++ ")") := by
  rcases hdl : dlookup m (canonBase m rec) with _ | ex
  · exact Or.inl (canonKey_of_not_mem hdl)
  · exact Or.inr (canonKey_of_mem hdl)

theorem dlookup_dictInsert_isSome {α : Type} {m : List (String × α)} {k key : String} {v : α}
    (h : (dlookup (dictInsert m key v) k).isSome) : k = key ∨ (dlookup m k).isSome := by
  by_cases he : key = k
  · exact Or.inl he.symm
  · right
    rwa [dlookup_dictInsert_ne he] at h

theorem canonAux_keys : ∀ (recs : List RawRec) (m m1 : List (String × CRec)),
    canonAux m recs = Except.ok m1 → (∀ x ∈ recs, pyStrip x.course ≠ "") →
    ∀ k, (dlookup m1 k).isSome →
      (dlookup m k).isSome ∨ ∃ x ∈ recs, k = baseKeyOf x ∨
        (∃ d, k = baseKeyOf x ++ " | " ++ d) ∨ (∃ t, k = baseKeyOf x ++ " (" ++ t ++ ")") := by
  intro recs
  induction recs with
  | nil =>
    intro m m1 h _ k hk
    simp [canonAux] at h
    subst h
    exact Or.inl hk
  | cons rec rest ih =>
    intro m m1 h hc k hk
    unfold canonAux at h
    rcases hs : canonStep m rec with e | m2
    · rw [hs] at h
      simp at h
    · rw [hs] at h
      obtain ⟨b, hb, hm2⟩ := canonStep_ok hs
      have hcrec : pyStrip rec.course ≠ "" := hc rec (List.mem_cons_self _ _)
      have hbase : canonBase m rec = baseKeyOf rec := canonBase_eq hcrec
      rcases ih _ _ h (fun x hx => hc x (List.mem_cons_of_mem _ hx)) k hk with hin2 | ⟨x, hx, hsh⟩
      · subst hm2
        rcases dlookup_dictInsert_isSome hin2 with hke | hm
        · right
          refine ⟨rec, List.mem_cons_self _ _, ?_⟩
          rw [hke]
          rcases canonKey_shape m rec with hk1 | ⟨d, hk1⟩ | ⟨t, hk1⟩
          · exact Or.inl (by rw [hk1, hbase])
          · exact Or.inr (Or.inl ⟨d, by rw [hk1, hbase]⟩)
          · exact Or.inr (Or.inr ⟨t, by rw [hk1, hbase]⟩)
        · exact Or.inl hm
      · exact Or.inr ⟨x, List.mem_cons_of_mem _ hx, hsh⟩

theorem canonAux_preserve (B : String) (w : CRec) :
    ∀ (recs : List RawRec) (m m1 : List (String × CRec)),
    canonAux m recs = Except.ok m1 →
    (∀ x ∈ recs, pyStrip x.course ≠ "") →
    (∀ x ∈ recs, (∀ d, B ≠ baseKeyOf x ++ " | " ++ d) ∧
                 (∀ t, B ≠ baseKeyOf x ++ " (" ++ t ++ ")")) →
    dlookup m B = some w → dlookup m1 B = some w := by
  intro recs
  induction recs with
  | nil =>
    intro m m1 h _ _ hw
    simp [canonAux] at h
    subst h
    exact hw
  | cons rec rest ih =>
    intro m m1 h hc hext hw
    unfold canonAux at h
    rcases hs : canonStep m rec with e | m2
    · rw [hs] at h
      simp at h
    · rw [hs] at h
      obtain ⟨b, hb, hm2⟩ := canonStep_ok hs
      have hcrec : pyStrip rec.course ≠ "" := hc rec (List.mem_cons_self _ _)
      have hbase : canonBase m rec = baseKeyOf rec := canonBase_eq hcrec
      have hkne : canonKey m rec ≠ B := by
        rcases hdl : dlookup m (canonBase m rec) with _ | ex
        · rw [canonKey_of_not_mem hdl, hbase]
          intro he
          rw [hbase, he] at hdl
          rw [hdl] at hw
          simp at hw
        · rcases canonKey_of_mem hdl with ⟨d, hk1⟩ | ⟨t, hk1⟩
          · rw [hk1, hbase]
            intro he
            exact (hext rec (List.mem_cons_self _ _)).1 d he.symm
          · rw [hk1, hbase]
            intro he
            exact (hext rec (List.mem_cons_self _ _)).2 t he.symm
      subst hm2
      have hw2 : dlookup (dictInsert m (canonKey m rec)
          (⟨pyStrip rec.course, pyStrip rec.grade, pyStrip rec.term, pyStrip rec.moed,
            pyStrip rec.date, if b then "true" else "false", rec.raw_text⟩ : CRec)) B = some w := by
        rw [dlookup_dictInsert_ne hkne]
        exact hw
      exact ih _ _ h (fun x hx => hc x (List.mem_cons_of_mem _ hx))
        (fun x hx => hext x (List.mem_cons_of_mem _ hx)) hw2

theorem canonAux_append : ∀ (a b : List RawRec) (m : List (String × CRec)),
    canonAux m (a ++ b) =
      match canonAux m a with
      | Except.ok m1 => canonAux m1 b
      | Except.error e => Except.error e := by
  intro a
  induction a with
  | nil => intro b m; rfl
  | cons rec rest ih =>
    intro b m
    have hL : canonAux m (rec :: (rest ++ b)) =
        match canonStep m rec with
        | Except.error e => Except.error e
        | Except.ok m2 => canonAux m2 (rest ++ b) := rfl
    have hR : canonAux m (rec :: rest) =
        match canonStep m rec with
        | Except.error e => Except.error e
        | Except.ok m2 => canonAux m2 rest := rfl
    show canonAux m (rec :: (rest ++ b)) = _
    rw [hL, hR]
    rcases hs : canonStep m rec with e | m2
    · rfl
    · exact ih b m2

/-- C10 amended: when every record has a non-empty course and no base key of a record textually extends the base key of another record with a
date or numeric suffix, the first record carrying a given base key is
stored under exactly that bare base key and its entry is never replaced
by a later record; base keys can otherwise be captured by the disambiguated key of an earlier record. -/
theorem c10_first_base_key_stable (l1 : List RawRec) (r : RawRec) (l2 : List RawRec)
    (m : List (String × CRec))
    (hcourse : ∀ x ∈ l1 ++ r :: l2, pyStrip x.course ≠ "")
    (hext : ∀ x ∈ l1 ++ r :: l2, ∀ y ∈ l1 ++ r :: l2,
      (∀ d, baseKeyOf x ≠ baseKeyOf y ++ " | " ++ d) ∧
      (∀ t, baseKeyOf x ≠ baseKeyOf y ++ " (" ++ t ++ ")"))
    (hfirst : ∀ x ∈ l1, baseKeyOf x ≠ baseKeyOf r)
    (hok : canonicalize (l1 ++ r :: l2) = Except.ok m) :
    dlookup m (baseKeyOf r) = canonValueOf r := by
  unfold canonicalize at hok
  rw [canonAux_append] at hok
  rcases h1 : canonAux [] l1 with e | m1
  · rw [h1] at hok
    simp at hok
  · rw [h1] at hok
    unfold canonAux at hok
    rcases hs : canonStep m1 r with e | m2
    · rw [hs] at hok
      simp at hok
    · rw [hs] at hok
      have hrin : r ∈ l1 ++ r :: l2 := List.mem_append_right _ (List.mem_cons_self _ _)
      have hcr : pyStrip r.course ≠ "" := hcourse r hrin
      have hnone : dlookup m1 (baseKeyOf r) = none := by
        rcases hdl : dlookup m1 (baseKeyOf r) with _ | v
        · rfl
        · exfalso
          have hsome : (dlookup m1 (baseKeyOf r)).isSome = true := by
            rw [hdl]
            rfl
          have hkeys := canonAux_keys l1 [] m1 h1
            (fun x hx => hcourse x (List.mem_append_left _ hx)) (baseKeyOf r) hsome
          rcases hkeys with habs | ⟨x, hx, hsh⟩
          · simp [dlookup] at habs
          · have hxin : x ∈ l1 ++ r :: l2 := List.mem_append_left _ hx
            rcases hsh with he | ⟨d, he⟩ | ⟨t, he⟩
            · exact hfirst x hx he.symm
            · exact (hext r hrin x hxin).1 d he
            · exact (hext r hrin x hxin).2 t he
      obtain ⟨b, hb, hm2⟩ := canonStep_ok hs
      have hbase : canonBase m1 r = baseKeyOf r := canonBase_eq hcr
      have hkey : canonKey m1 r = baseKeyOf r := by
        rw [canonKey_of_not_mem (by rw [hbase]; exact hnone), hbase]
      subst hm2
      have hstart : dlookup (dictInsert m1 (canonKey m1 r)
          (⟨pyStrip r.course, pyStrip r.grade, pyStrip r.term, pyStrip r.moed,
            pyStrip r.date, if b then "true" else "false", r.raw_text⟩ : CRec)) (baseKeyOf r) =
          some ⟨pyStrip r.course, pyStrip r.grade, pyStrip r.term, pyStrip r.moed,
            pyStrip r.date, if b then "true" else "false", r.raw_text⟩ := by
        rw [hkey]
        exact dlookup_dictInsert_self m1 _ _
      have hfin := canonAux_preserve (baseKeyOf r) _ l2 _ m hok
        (fun x hx => hcourse x (List.mem_append_right _ (List.mem_cons_of_mem _ hx)))
        (fun x hx =>
          hext r hrin x (List.mem_append_right _ (List.mem_cons_of_mem _ hx)))
        hstart
      rw [hfin, canonValueOf_eq hb]

theorem ne_append_of_length_lt {a b : String} (h : a.length < b.length) (c : String) :
    a ≠ b ++ c := by
  intro he
  rw [he, String.length_append] at h
  omega

theorem ne_append3_of_length_lt {a b : String} (h : a.length < b.length) (c e : String) :
    a ≠ b ++ c ++ e := by
  intro he
  rw [he, String.length_append, String.length_append] at h
  omega

/-- C10 counterexample: in the list [A, A, "A (2)"], the only record
whose base key is "A (2)" is the third, yet the snapshot entry at key
"A (2)" belongs to the second record (course "A"): the numeric-suffix key of the second record captured the bare base key of the third record. -/
theorem c10_first_base_key_cx :
    (canonicalize [recAD "A" "", recAD "A" "", recAD "A (2)" ""]).map
        (fun m => (dlookup m "A (2)").map CRec.course) = Except.ok (some "A") ∧
    baseKeyOf (recAD "A (2)" "") = "A (2)" ∧ baseKeyOf (recAD "A" "") = "A" := by
  exact ⟨by decide, by decide, by decide⟩

/-- C10 witness: the amended theorem applied to a concrete two-record
input with distinct, non-extending base keys. -/
theorem c10_first_base_key_stable_w :
    canonicalize [recAD "A" "", recAD "B" ""] = Except.ok mW10 ∧
    dlookup mW10 (baseKeyOf (recAD "B" "")) = canonValueOf (recAD "B" "") := by
  refine ⟨by decide, c10_first_base_key_stable [recAD "A" ""] (recAD "B" "") [] mW10
    (by decide) ?_ (by decide) (by decide)⟩
  intro x hx y hy
  simp only [List.cons_append, List.nil_append] at hx hy
  fin_cases hx <;> fin_cases hy <;>
    refine ⟨fun d => ne_append_of_length_lt ?_ d, fun t => ne_append3_of_length_lt ?_ t ")"⟩ <;>
    decide

theorem processPhase_fields (env : FetchEnv) (exams : List RawRec) (src : String) (n : Nat) :
    (processPhase env exams src n).domAttempts = n ∧
    (processPhase env exams src n).usedRecords = exams := by
  unfold processPhase
  constructor <;>
  · split
    · split <;> rfl
    · split
      · rfl
      · split <;> rfl

theorem domPhase_attempts (env : FetchEnv) : (domPhase env).domAttempts = 1 := by
  unfold domPhase
  by_cases h : env.domLogin = true
  · rw [if_pos h]
    rcases hs : env.domScrape with e | l
    · rfl
    · exact (processPhase_fields env l _ 1).1
  · rw [if_neg h]
    exact (processPhase_fields env [] "None" 1).1

/-- C4: whenever the primary extractor returns zero rows or raises, the
orchestrator runs the DOM fallback strategy exactly once and, when the
fallback login and scrape succeed, uses the scraped rows as the record
list; when the primary returns a non-empty list, the fallback is never
attempted and the primary rows are used. -/
theorem c4_fallback_ordering (env : FetchEnv) :
    ((env.primary = Except.ok [] ∨ ∃ e, env.primary = Except.error e) →
      (monitor_grades_with_fallback env).domAttempts = 1) ∧
    (∀ l, env.primary = Except.ok l → l ≠ [] →
      (monitor_grades_with_fallback env).domAttempts = 0 ∧
      (monitor_grades_with_fallback env).usedRecords = l) ∧
    (∀ l, env.domLogin = true → env.domScrape = Except.ok l →
      (env.primary = Except.ok [] ∨ ∃ e, env.primary = Except.error e) →
      (monitor_grades_with_fallback env).usedRecords = l) := by
  have hdom : ∀ h : env.primary = Except.ok [] ∨ ∃ e, env.primary = Except.error e,
      monitor_grades_with_fallback env = domPhase env := by
    intro h
    rcases h with h0 | ⟨e, he⟩
    · unfold monitor_grades_with_fallback
      rw [h0]
      show (if ([] : List RawRec) = [] then domPhase env else processPhase env [] "API" 0) =
        domPhase env
      rw [if_pos rfl]
    · unfold monitor_grades_with_fallback
      rw [he]
  refine ⟨fun h => ?_, fun l hp hne => ?_, fun l hlog hscr h => ?_⟩
  · rw [hdom h]
    exact domPhase_attempts env
  · unfold monitor_grades_with_fallback
    rw [hp]
    show (if l = [] then domPhase env else processPhase env l "API" 0).domAttempts = 0 ∧
      (if l = [] then domPhase env else processPhase env l "API" 0).usedRecords = l
    rw [if_neg hne]
    exact processPhase_fields env l "API" 0
  · rw [hdom h]
    unfold domPhase
    rw [if_pos hlog, hscr]
    show (processPhase env l (if l = [] then "None" else "DOM") 1).usedRecords = l
    exact (processPhase_fields env l _ 1).2

/-- C4 witness: the theorem applied to an environment whose primary
result is empty and whose fallback scrape returns one record. -/
theorem c4_fallback_ordering_w :
    (monitor_grades_with_fallback envC4).domAttempts = 1 ∧
    (monitor_grades_with_fallback envC4).usedRecords = [recW4] :=
  ⟨(c4_fallback_ordering envC4).1 (Or.inl rfl),
   (c4_fallback_ordering envC4).2.2 [recW4] rfl rfl (Or.inl rfl)⟩

/-- C5: when both extraction strategies yield zero rows, the cycle
raises the critical failure exactly when the cached snapshot has more
than five records; with an at-threshold or smaller cache it ends without
error, and in neither case is the cache written. -/
theorem c5_both_empty_critical (env : FetchEnv)
    (hp : env.primary = Except.ok []) (hl : env.domLogin = true)
    (hs : env.domScrape = Except.ok []) :
    ((monitor_grades_with_fallback env).outcome =
        Except.error (FetchErr.critical (criticalMsg env.cache.length)) ↔
      5 < env.cache.length) ∧
    (¬ 5 < env.cache.length → (monitor_grades_with_fallback env).outcome = Except.ok ()) ∧
    (monitor_grades_with_fallback env).cacheWritten = none := by
  have hm : monitor_grades_with_fallback env = processPhase env [] "None" 1 := by
    unfold monitor_grades_with_fallback
    rw [hp]
    show (if ([] : List RawRec) = [] then domPhase env else processPhase env [] "API" 0) = _
    rw [if_pos rfl]
    unfold domPhase
    rw [if_pos hl, hs]
    show processPhase env [] (if ([] : List RawRec) = [] then "None" else "DOM") 1 = _
    rw [if_pos rfl]
  rw [hm]
  unfold processPhase
  rw [if_pos rfl]
  by_cases hc : env.cache ≠ [] ∧ 5 < env.cache.length
  · rw [if_pos hc]
    exact ⟨⟨fun _ => hc.2, fun _ => rfl⟩, fun hno => absurd hc.2 hno, rfl⟩
  · rw [if_neg hc]
    have hlt : ¬ 5 < env.cache.length := by
      intro hgt
      apply hc
      refine ⟨fun hnil => ?_, hgt⟩
      rw [hnil] at hgt
      simp at hgt
    refine ⟨⟨fun habs => absurd habs (by simp), fun hgt => absurd hgt hlt⟩,
      fun _ => rfl, rfl⟩

/-- C5 witness: the theorem applied to a six-record cache (critical) and
to an empty cache (quiet, no cache write). -/
theorem c5_both_empty_critical_w :
    (monitor_grades_with_fallback envC5crit).outcome =
      Except.error (FetchErr.critical (criticalMsg 6)) ∧
    (monitor_grades_with_fallback envC5quiet).outcome = Except.ok () ∧
    (monitor_grades_with_fallback envC5quiet).cacheWritten = none :=
  ⟨(c5_both_empty_critical envC5crit rfl rfl rfl).1.mpr (by decide),
   (c5_both_empty_critical envC5quiet rfl rfl rfl).2.1 (by decide),
   (c5_both_empty_critical envC5quiet rfl rfl rfl).2.2⟩

theorem looks_like_iff (o : Option String) :
    looks_like_file_reference o = true ↔ claimFileField o := by
  cases o with
  | none => simp [looks_like_file_reference, claimFileField]
  | some s =>
    unfold looks_like_file_reference claimFileField
    dsimp only
    constructor
    · intro h
      by_cases h1 : pyStrip s = ""
      · rw [if_pos h1] at h
        exact absurd h (by simp)
      · rw [if_neg h1] at h
        by_cases h2 : pyLower (pyStrip s) = "-" ∨ pyLower (pyStrip s) = "--" ∨
            pyLower (pyStrip s) = "none" ∨ pyLower (pyStrip s) = "null" ∨
            pyLower (pyStrip s) = "false" ∨ pyLower (pyStrip s) = "0"
        · rw [if_pos h2] at h
          exact absurd h (by simp)
        · rw [if_neg h2] at h
          refine ⟨s, rfl, h1, fun hmem => h2 (by simpa using hmem), ?_⟩
          simp only [Bool.or_eq_true, or_assoc] at h
          rcases h with h | h | h | h | h | h
          · exact ⟨".pdf", by simp, h⟩
          · exact ⟨".doc", by simp, h⟩
          · exact ⟨".docx", by simp, h⟩
          · exact ⟨".zip", by simp, h⟩
          · exact ⟨"download", by simp, h⟩
          · exact ⟨"/", by simp, h⟩
    · rintro ⟨s2, hs2, h1, h2, tok, htok, hsub⟩
      obtain rfl : s = s2 := Option.some.inj hs2
      rw [if_neg h1, if_neg (fun hd => h2 (by simpa using hd))]
      simp only [Bool.or_eq_true, or_assoc]
      have htok2 : tok = ".pdf" ∨ tok = ".doc" ∨ tok = ".docx" ∨ tok = ".zip" ∨
          tok = "download" ∨ tok = "/" := by simpa using htok
      rcases htok2 with rfl | rfl | rfl | rfl | rfl | rfl
      · exact Or.inl hsub
      · exact Or.inr (Or.inl hsub)
      · exact Or.inr (Or.inr (Or.inl hsub))
      · exact Or.inr (Or.inr (Or.inr (Or.inl hsub)))
      · exact Or.inr (Or.inr (Or.inr (Or.inr (Or.inl hsub))))
      · exact Or.inr (Or.inr (Or.inr (Or.inr (Or.inr hsub))))

theorem has_notebook_file_iff (item : ApiItem) :
    has_notebook_file item = true ↔ claimNotebook item := by
  unfold has_notebook_file claimNotebook
  dsimp only
  by_cases h : pyLower (pyStrip (item.ScanStatus.getD "")) ≠ "file"
  · rw [if_pos h]
    constructor
    · intro hf
      exact absurd hf (by simp)
    · rintro ⟨hst, _⟩
      exact absurd hst h
  · rw [if_neg h]
    push_neg at h
    rw [Bool.or_eq_true, looks_like_iff, looks_like_iff]
    exact ⟨fun hor => ⟨h, hor⟩, fun hcn => hcn.2⟩

/-- Inversion for a guarded some: the value and the guard both hold. -/
theorem option_if_some {α : Type} {p : Prop} [Decidable p] {x r : α}
    (h : (if p then some x else none) = some r) : r = x ∧ p := by
  by_cases hp : p
  · rw [if_pos hp] at h
    exact ⟨(Option.some.inj h).symm, hp⟩
  · rw [if_neg hp] at h
    exact absurd h (by simp)

/-- C8: a record produced by the row mapping of the API extractor has
notebookAvailable true exactly when the scan status of the item, trimmed and
lowercased, is the "file" sentinel and at least one of the File and
ScanFileName fields is a non-empty, non-placeholder string containing a
known extension or path-like token. -/
theorem c8_notebook_iff (item : ApiItem) (r : RawRec) (hr : r ∈ process_grades [item]) :
    r.notebook_available = PyVal.pyBool true ↔ claimNotebook item := by
  unfold process_grades at hr
  rw [List.mem_filterMap] at hr
  obtain ⟨a, ha, hfa⟩ := hr
  have ha2 : a = item := by simpa using ha
  subst ha2
  dsimp only at hfa
  obtain ⟨hrec, hcc⟩ := option_if_some hfa
  subst hrec
  show PyVal.pyBool (has_notebook_file a) = PyVal.pyBool true ↔ claimNotebook a
  rw [PyVal.pyBool.injEq]
  exact has_notebook_file_iff a

/-- C8 witness: the theorem applied to an item with scan status "File"
and a pdf file name yields an available notebook. -/
theorem c8_notebook_iff_w :
    recW8 ∈ process_grades [itemW8] ∧ recW8.notebook_available = PyVal.pyBool true :=
  ⟨by decide,
    (c8_notebook_iff itemW8 recW8 (by decide)).mpr
      ⟨by decide, Or.inl ⟨"hw.pdf", rfl, by decide, by decide, ".pdf", by decide, by decide⟩⟩⟩

/-- C9 amended: main.extract_from_table returns exactly the built row
records with a non-empty course or grade, while
RobustGradesScraper.scrape returns exactly the built records of visible
rows with a non-empty course — a row with a grade but no course is kept
by the former and discarded by the latter. -/
theorem c9_dom_row_filter :
    (∀ (rows : List DomRow) (r : RawRec),
        r ∈ extract_from_table rows ↔
          r ∈ rows.filterMap tableRowRecord ∧ (r.course ≠ "" ∨ r.grade ≠ "")) ∧
    (∀ (headerTexts : List String) (rows : List ScrapeRow) (r : RawRec),
        r ∈ scrape headerTexts rows ↔
          (∃ row ∈ rows, row.visible = true ∧
            scrapeRowRecord (headerTexts.map header_to_key) row = some r) ∧
          r.course ≠ "") := by
  constructor
  · intro rows r
    unfold extract_from_table
    rw [List.mem_filter]
    simp
  · intro hts rows r
    unfold scrape
    dsimp only
    rw [List.mem_filterMap]
    constructor
    · rintro ⟨row, hrow, hf⟩
      by_cases hv : row.visible = true
      · rw [if_neg (by simp [hv])] at hf
        rcases hs2 : scrapeRowRecord (hts.map header_to_key) row with _ | rec
        · rw [hs2] at hf
          exact absurd hf (by simp)
        · rw [hs2] at hf
          have hf2 : (if rec.course ≠ "" then some rec else none) = some r := hf
          obtain ⟨hrec, hcr⟩ := option_if_some hf2
          subst hrec
          exact ⟨⟨row, hrow, hv, hs2⟩, hcr⟩
      · rw [if_pos (by simpa using hv)] at hf
        exact absurd hf (by simp)
    · rintro ⟨⟨row, hrow, hv, hsr⟩, hcourse⟩
      refine ⟨row, hrow, ?_⟩
      rw [if_neg (by simp [hv]), hsr]
      show (if r.course ≠ "" then some r else none) = some r
      rw [if_pos hcourse]

/-- C9 counterexample: a visible scraped row whose built record has the
grade "90" and an empty course is dropped by RobustGradesScraper.scrape,
so a row with a non-empty grade does not appear in the returned list. -/
theorem c9_dom_row_filter_cx :
    scrape [gradeHeaderText] [cxRow9] = [] ∧
    scrapeRowRecord ([gradeHeaderText].map header_to_key) cxRow9 =
      some ⟨"", "90", "", "", "", PyVal.pyBool false, "90"⟩ ∧
    cxRow9.visible = true := by
  exact ⟨by decide, by decide, by decide⟩

/-- C9 witness: the amended characterizations applied at a concrete
table row and a concrete scraped row. -/
theorem c9_dom_row_filter_w :
    scrapeRowRecord ([gradeHeaderText].map header_to_key) cxRow9 =
      some ⟨"", "90", "", "", "", PyVal.pyBool false, "90"⟩ ∧
    ((⟨"", "90", "", "", "", PyVal.pyBool false, "90"⟩ : RawRec) ∈
        scrape [gradeHeaderText] [cxRow9] ↔
      (∃ row ∈ [cxRow9], row.visible = true ∧
        scrapeRowRecord ([gradeHeaderText].map header_to_key) row =
          some ⟨"", "90", "", "", "", PyVal.pyBool false, "90"⟩) ∧
      ("" : String) ≠ "") :=
  ⟨by decide, (c9_dom_row_filter.2 [gradeHeaderText] [cxRow9]
    ⟨"", "90", "", "", "", PyVal.pyBool false, "90"⟩)⟩

end GradeNotifier
